import Mathlib

/- Shallow embedding of the template rendering engine in
   src/wasmwiz/mock_server.py: the function render_template (lines 107-152)
   together with the page-title table of get_page_title (lines 154-168).

   Documents and string values are modelled as lists of characters.  Python
   string search (the `in` operator, re.search with a non-greedy DOTALL
   pattern between two fixed literals, re.sub over the same patterns, and
   str.replace) is modelled by `splitFirst`, which returns the text before
   the first occurrence of a literal pattern and the text after it.  The
   recursive replacement loops are written with an explicit fuel argument
   (the length of the scanned text suffices, as each replacement consumes at
   least the pattern) so that every definition is structurally recursive and
   evaluates in the kernel.  Replacement strings are spliced literally; the
   repository's templates contain no regex backreference escapes, so this
   matches re.sub's behaviour on all inputs considered here. -/

abbrev Str := List Char

def strOf (s : String) : Str := s.data

def quoteChar : Char := '\x22'

/- Python str.strip removes ASCII whitespace (and unicode spaces, which do
   not occur in the repository's templates) from both ends. -/
def pyIsSpace (c : Char) : Bool :=
  c == ' ' || c == '\t' || c == '\n' || c == '\r' || c == '\x0b' || c == '\x0c'

def pyStrip (s : Str) : Str :=
  ((s.dropWhile pyIsSpace).reverse.dropWhile pyIsSpace).reverse

/- First occurrence of a literal pattern: returns the text strictly before
   the occurrence and the text strictly after it. -/
def splitFirst (pat : Str) : Str → Option (Str × Str)
  | [] => if pat.isPrefixOf ([] : Str) then some ([], []) else none
  | c :: rest =>
      if pat.isPrefixOf (c :: rest) then some ([], (c :: rest).drop pat.length)
      else
        match splitFirst pat rest with
        | some (a, b) => some (c :: a, b)
        | none => none

/- Python's substring containment test (`pat in s`). -/
def containsSub (pat s : Str) : Bool := (splitFirst pat s).isSome

/- The literal block markers of render_template's regular expressions. -/
def blockOpen (name : Str) : Str := strOf "\x7b% block " ++ name ++ strOf " %\x7d"

def endblock : Str := strOf "\x7b% endblock %\x7d"

/- Line 111: the fixed extends directive tested by substring containment. -/
def extendsMarker : Str := strOf "\x7b% extends \"base.html\" %\x7d"

/- re.search(r'{% block NAME %}(.*?){% endblock %}', doc, re.DOTALL):
   the first open marker, then the nearest following close marker; the
   group(1) text strictly between them (not yet stripped). -/
def extractBlock (name doc : Str) : Option Str :=
  match splitFirst (blockOpen name) doc with
  | none => none
  | some (_, rest) =>
      match splitFirst endblock rest with
      | none => none
      | some (inner, _) => some inner

/- re.sub(r'{% block NAME %}.*?{% endblock %}', repl, s, re.DOTALL):
   replaces every non-overlapping leftmost-shortest match. -/
def subBlockF (name repl : Str) : Nat → Str → Str
  | 0, s => s
  | fuel + 1, s =>
      match splitFirst (blockOpen name) s with
      | none => s
      | some (pre, rest) =>
          match splitFirst endblock rest with
          | none => s
          | some (_, after) => pre ++ repl ++ subBlockF name repl fuel after

def subBlock (name repl s : Str) : Str := subBlockF name repl s.length s

/- Line 142: the placeholder literal '{{ ' + key + ' }}'. -/
def varPat (key : Str) : Str := strOf "\x7b\x7b " ++ key ++ strOf " \x7d\x7d"

/- Python str.replace: every non-overlapping occurrence, left to right,
   without re-scanning the inserted replacement text. -/
def replaceVarF (key value : Str) : Nat → Str → Str
  | 0, s => s
  | fuel + 1, s =>
      match splitFirst (varPat key) s with
      | none => s
      | some (pre, rest) => pre ++ value ++ replaceVarF key value fuel rest

def replaceVar (key value s : Str) : Str := replaceVarF key value s.length s

/- Lines 140-142: the substitution loop over context.items(), in order. -/
def substVars : List (Str × Str) → Str → Str
  | [], s => s
  | (k, v) :: rest, s => substVars rest (replaceVar k v s)

/- Python dict lookup on an association list with unique keys. -/
def ctxFind : List (Str × Str) → Str → Option Str
  | [], _ => none
  | (k, v) :: rest, key => if k = key then some v else ctxFind rest key

/- context.get(key, default). -/
def ctxGet (ctx : List (Str × Str)) (key dflt : Str) : Str :=
  (ctxFind ctx key).getD dflt

/- The three fixed literal pieces of the conditional-class pattern
   r'class="([^"]*?){% if active_page == "([^"]+)" %}active{% endif %}([^"]*?)"'. -/
def condClassPre : Str := strOf "class=\""

def condIfPreNoQuote : Str := strOf "\x7b% if active_page == "

def condAfterTarget : Str := strOf " %\x7dactive\x7b% endif %\x7d"

/- A match of the conditional-class pattern starting at the head of s.
   All three capture groups exclude double quotes and the literal pieces
   between them each end at a forced double quote, so the regex match at a
   given start position is fully determined: group(1) runs to the first
   quote after class=" (which must terminate the {% if active_page == "
   literal), group(2) runs to the next quote and must be nonempty, then the
   literal " %}active{% endif %} must follow, and group(3) runs to the next
   quote.  Returns the f-string replacement and the text after the match. -/
def tryCondAt (ap s : Str) : Option (Str × Str) :=
  if condClassPre.isPrefixOf s then
    match splitFirst [quoteChar] (s.drop condClassPre.length) with
    | none => none
    | some (u, s2) =>
        if condIfPreNoQuote.isSuffixOf u then
          match splitFirst [quoteChar] s2 with
          | none => none
          | some (t, s3) =>
              if t ≠ [] ∧ condAfterTarget.isPrefixOf s3 = true then
                match splitFirst [quoteChar] (s3.drop condAfterTarget.length) with
                | none => none
                | some (g3, s5) =>
                    some (condClassPre ++ u.take (u.length - condIfPreNoQuote.length) ++
                          (if ap = t then strOf "active" else []) ++ g3 ++ [quoteChar], s5)
              else none
        else none
  else none

/- Lines 144-150: re.sub with the lambda replacement, scanning left to
   right for non-overlapping matches. -/
def condClassSubF (ap : Str) : Nat → Str → Str
  | 0, s => s
  | _ + 1, [] => []
  | fuel + 1, c :: rest =>
      match tryCondAt ap (c :: rest) with
      | some (repl, after) => repl ++ condClassSubF ap fuel after
      | none => c :: condClassSubF ap fuel rest

def condClassSub (ap s : Str) : Str := condClassSubF ap s.length s

/- A well-formed conditional-class fragment with surrounding class text a
   and b and target t, and the text the lambda replacement produces for it. -/
def condFrag (a t b : Str) : Str :=
  condClassPre ++ a ++ condIfPreNoQuote ++ [quoteChar] ++ t ++ [quoteChar] ++
    condAfterTarget ++ b ++ [quoteChar]

def condOut (ap a t b : Str) : Str :=
  condClassPre ++ a ++ (if ap = t then strOf "active" else []) ++ b ++ [quoteChar]

/- Lines 113-134: inheritance resolution against the loaded base template.
   The content block of the child, if present, is stripped and spliced over
   every content block of the base; then the title block likewise, falling
   back to context.get('title', 'WasmWiz') when the child has none. -/
def composeInherit (base_content content : Str) (context : List (Str × Str)) : Str :=
  let r1 :=
    match extractBlock (strOf "content") content with
    | some g => subBlock (strOf "content") (pyStrip g) base_content
    | none => base_content
  match extractBlock (strOf "title") content with
  | some g => subBlock (strOf "title") (pyStrip g) r1
  | none => subBlock (strOf "title") (ctxGet context (strOf "title") (strOf "WasmWiz")) r1

/- Lines 107-152: render_template(content, context).  base_html is the
   result of looking up base.html on disk (lines 113-114): some text when
   os.path.exists succeeds, none when the file is absent, in which case the
   code falls through to `rendered = content`. -/
def render_template (base_html : Option Str) (content : Str)
    (context : List (Str × Str)) : Str :=
  let rendered :=
    if containsSub extendsMarker content then
      match base_html with
      | some base_content => composeInherit base_content content context
      | none => content
    else content
  let substituted := substVars context rendered
  condClassSub (ctxGet context (strOf "active_page") []) substituted

/- Lines 154-168: get_page_title's route table and its fallback for
   unknown routes. -/
def pageTitles : List (Str × Str) :=
  [ (strOf "/", strOf "Execute WebAssembly - WasmWiz"),
    (strOf "/api-keys", strOf "API Key Management - WasmWiz"),
    (strOf "/docs", strOf "API Documentation - WasmWiz"),
    (strOf "/examples", strOf "WebAssembly Examples - WasmWiz"),
    (strOf "/pricing", strOf "Pricing Plans - WasmWiz"),
    (strOf "/faq", strOf "Frequently Asked Questions - WasmWiz"),
    (strOf "/support", strOf "Get Support - WasmWiz"),
    (strOf "/security", strOf "Security & Compliance - WasmWiz"),
    (strOf "/terms", strOf "Terms of Service - WasmWiz"),
    (strOf "/privacy", strOf "Privacy Policy - WasmWiz") ]

def get_page_title (route : Str) : Str :=
  (ctxFind pageTitles route).getD (strOf "WasmWiz - WebAssembly Execution API")


/- ------------------------------------------------------------------ -/
/- Cons forms of the fixed literal patterns, for head-character tests. -/

theorem blockOpen_cons (n : Str) :
    blockOpen n = '\x7b' :: (strOf "% block " ++ n ++ strOf " %\x7d") := rfl

theorem endblock_cons : endblock = '\x7b' :: strOf "% endblock %\x7d" := rfl

theorem varPat_cons (k : Str) :
    varPat k = '\x7b' :: (strOf "\x7b " ++ k ++ strOf " \x7d\x7d") := rfl

theorem condClassPre_cons : condClassPre = 'c' :: strOf "lass=\"" := rfl

/- ------------------------------------------------------------------ -/
/- Basic facts about isPrefixOf and splitFirst. -/

theorem splitFirst_cons (pat : Str) (c : Char) (rest : Str) :
    splitFirst pat (c :: rest) =
      if pat.isPrefixOf (c :: rest) then some ([], (c :: rest).drop pat.length)
      else
        match splitFirst pat rest with
        | some (a, b) => some (c :: a, b)
        | none => none := rfl

theorem isPrefixOf_append_self : (p r : Str) → p.isPrefixOf (p ++ r) = true
  | [], _ => by simp [List.isPrefixOf]
  | c :: p', r => by
      simp only [List.cons_append, List.isPrefixOf, beq_self_eq_true, Bool.true_and]
      exact isPrefixOf_append_self p' r

theorem mem_of_isPrefixOf : {p s : Str} → p.isPrefixOf s = true → ∀ {a : Char}, a ∈ p → a ∈ s
  | [], _, _, _, ha => absurd ha (List.not_mem_nil _)
  | _ :: _, [], h, _, _ => by simp [List.isPrefixOf] at h
  | c :: p', d :: s', h, a, ha => by
      simp only [List.isPrefixOf, Bool.and_eq_true, beq_iff_eq] at h
      rcases List.mem_cons.mp ha with h1 | h1
      · exact h1 ▸ h.1 ▸ List.mem_cons_self d s'
      · exact List.mem_cons_of_mem d (mem_of_isPrefixOf h.2 h1)

theorem splitFirst_some_le : {pat s a b : Str} → splitFirst pat s = some (a, b) →
    b.length ≤ s.length := by
  intro pat s
  induction s with
  | nil =>
      intro a b h
      simp only [splitFirst] at h
      split at h
      · cases h; simp
      · cases h
  | cons c rest ih =>
      intro a b h
      rw [splitFirst_cons] at h
      split at h
      · cases h
        rw [List.length_drop]
        omega
      · split at h
        next a' b' heq =>
          cases h
          have := ih heq
          simp only [List.length_cons]
          omega
        next => cases h

theorem splitFirst_some_lt : {hch : Char} → {pt s a b : Str} →
    splitFirst (hch :: pt) s = some (a, b) → b.length < s.length := by
  intro hch pt s
  induction s with
  | nil =>
      intro a b h
      simp [splitFirst, List.isPrefixOf] at h
  | cons c rest ih =>
      intro a b h
      rw [splitFirst_cons] at h
      split at h
      · cases h
        rw [List.length_drop]
        simp only [List.length_cons]
        omega
      · split at h
        next a' b' heq =>
          cases h
          have := ih heq
          simp only [List.length_cons]
          omega
        next => cases h

theorem splitFirst_some_drop : {pat s a b : Str} → splitFirst pat s = some (a, b) →
    b = s.drop (a.length + pat.length) := by
  intro pat s
  induction s with
  | nil =>
      intro a b h
      simp only [splitFirst] at h
      split at h
      · cases h; simp
      · cases h
  | cons c rest ih =>
      intro a b h
      rw [splitFirst_cons] at h
      split at h
      · cases h; simp
      · split at h
        next a' b' heq =>
          cases h
          have hb := ih heq
          rw [hb, List.length_cons]
          rw [show a'.length + 1 + pat.length = a'.length + pat.length + 1 by omega]
          rw [List.drop_succ_cons]
        next => cases h

theorem splitFirst_append_head {hch : Char} {pt : Str} : (x rest : Str) → hch ∉ x →
    splitFirst (hch :: pt) (x ++ (hch :: pt) ++ rest) = some (x, rest)
  | [], rest, _ => by
      show splitFirst (hch :: pt) ((hch :: pt) ++ rest) = some ([], rest)
      rw [show (hch :: pt) ++ rest = hch :: (pt ++ rest) from rfl, splitFirst_cons]
      rw [if_pos (show (hch :: pt).isPrefixOf (hch :: (pt ++ rest)) = true from
        isPrefixOf_append_self (hch :: pt) rest)]
      rw [show (hch :: (pt ++ rest)) = (hch :: pt) ++ rest from rfl, List.drop_left]
  | d :: x', rest, hx => by
      have hd : hch ≠ d := fun e => hx (e ▸ List.mem_cons_self d x')
      have hx' : hch ∉ x' := fun e => hx (List.mem_cons_of_mem d e)
      show splitFirst (hch :: pt) (d :: (x' ++ (hch :: pt) ++ rest)) = some (d :: x', rest)
      rw [splitFirst_cons]
      rw [if_neg (by
        simp only [List.isPrefixOf, Bool.and_eq_true, beq_iff_eq]
        exact fun hcontra => hd hcontra.1)]
      rw [splitFirst_append_head x' rest hx']

theorem splitFirst_none_head {hch : Char} {pt : Str} : (s : Str) → hch ∉ s →
    splitFirst (hch :: pt) s = none
  | [], _ => by simp [splitFirst, List.isPrefixOf]
  | d :: s', hs => by
      have hd : hch ≠ d := fun e => hs (e ▸ List.mem_cons_self d s')
      have hs' : hch ∉ s' := fun e => hs (List.mem_cons_of_mem d e)
      rw [splitFirst_cons]
      rw [if_neg (by
        simp only [List.isPrefixOf, Bool.and_eq_true, beq_iff_eq]
        exact fun hcontra => hd hcontra.1)]
      rw [splitFirst_none_head s' hs']

theorem containsSub_cons {pat rest : Str} {d : Char} (h : containsSub pat rest = true) :
    containsSub pat (d :: rest) = true := by
  rw [containsSub, splitFirst_cons]
  split
  · simp
  · cases hs : splitFirst pat rest with
    | none => rw [containsSub, hs] at h; simp at h
    | some ab => simp [hs]

theorem containsSub_drop {pat : Str} : (s : Str) → (k : Nat) →
    containsSub pat (s.drop k) = true → containsSub pat s = true
  | _, 0, h => by simpa using h
  | [], _ + 1, h => by simpa using h
  | _ :: rest, k + 1, h => containsSub_cons (containsSub_drop rest k h)

theorem extractBlock_none_of_no_close {name doc : Str}
    (h : containsSub endblock doc = false) : extractBlock name doc = none := by
  cases h1 : splitFirst (blockOpen name) doc with
  | none => simp [extractBlock, h1]
  | some ab =>
      obtain ⟨a, b⟩ := ab
      cases h2 : splitFirst endblock b with
      | none => simp [extractBlock, h1, h2]
      | some cd =>
          exfalso
          have hb : b = doc.drop (a.length + (blockOpen name).length) :=
            splitFirst_some_drop h1
          have hcb : containsSub endblock b = true := by
            rw [containsSub, h2]; rfl
          rw [hb] at hcb
          have hcd := containsSub_drop doc _ hcb
          rw [h] at hcd
          exact Bool.noConfusion hcd

/- ------------------------------------------------------------------ -/
/- Fuel irrelevance and recursion equations for the replacement loops. -/

theorem subBlockF_fuel (name repl : Str) : (f1 f2 : Nat) → (s : Str) →
    s.length ≤ f1 → s.length ≤ f2 → subBlockF name repl f1 s = subBlockF name repl f2 s
  | 0, 0, _, _, _ => rfl
  | 0, _ + 1, s, h1, _ => by
      have hs : s = [] := List.eq_nil_of_length_eq_zero (Nat.le_zero.mp h1)
      subst hs
      simp only [subBlockF, blockOpen_cons, splitFirst_none_head [] (List.not_mem_nil _)]
  | _ + 1, 0, s, _, h2 => by
      have hs : s = [] := List.eq_nil_of_length_eq_zero (Nat.le_zero.mp h2)
      subst hs
      simp only [subBlockF, blockOpen_cons, splitFirst_none_head [] (List.not_mem_nil _)]
  | f1 + 1, f2 + 1, s, h1, h2 => by
      cases hsp : splitFirst (blockOpen name) s with
      | none => simp only [subBlockF, hsp]
      | some pr =>
          obtain ⟨pre, rest⟩ := pr
          cases hsp2 : splitFirst endblock rest with
          | none => simp only [subBlockF, hsp, hsp2]
          | some ir =>
              obtain ⟨inner, after⟩ := ir
              have l1 : rest.length < s.length := by
                rw [blockOpen_cons] at hsp
                exact splitFirst_some_lt hsp
              have l2 : after.length ≤ rest.length := splitFirst_some_le hsp2
              have hrec := subBlockF_fuel name repl f1 f2 after (by omega) (by omega)
              simp only [subBlockF, hsp, hsp2, hrec]

theorem subBlock_eq (name repl s : Str) :
    subBlock name repl s =
      match splitFirst (blockOpen name) s with
      | none => s
      | some (pre, rest) =>
          match splitFirst endblock rest with
          | none => s
          | some (_, after) => pre ++ repl ++ subBlock name repl after := by
  cases hsp : splitFirst (blockOpen name) s with
  | none =>
      show subBlockF name repl s.length s = _
      cases hL : s.length with
      | zero => simp only [subBlockF, hsp]
      | succ k => simp only [subBlockF, hsp]
  | some pr =>
      obtain ⟨pre, rest⟩ := pr
      have l1 : rest.length < s.length := by
        rw [blockOpen_cons] at hsp
        exact splitFirst_some_lt hsp
      show subBlockF name repl s.length s = _
      cases hL : s.length with
      | zero => omega
      | succ k =>
          cases hsp2 : splitFirst endblock rest with
          | none => simp only [subBlockF, hsp, hsp2]
          | some ir =>
              obtain ⟨inner, after⟩ := ir
              have l2 : after.length ≤ rest.length := splitFirst_some_le hsp2
              have hrec : subBlockF name repl k after = subBlock name repl after := by
                show _ = subBlockF name repl after.length after
                exact subBlockF_fuel name repl k after.length after (by omega) (by omega)
              simp only [subBlockF, hsp, hsp2, hrec]

theorem replaceVarF_fuel (key value : Str) : (f1 f2 : Nat) → (s : Str) →
    s.length ≤ f1 → s.length ≤ f2 →
    replaceVarF key value f1 s = replaceVarF key value f2 s
  | 0, 0, _, _, _ => rfl
  | 0, _ + 1, s, h1, _ => by
      have hs : s = [] := List.eq_nil_of_length_eq_zero (Nat.le_zero.mp h1)
      subst hs
      simp only [replaceVarF, varPat_cons, splitFirst_none_head [] (List.not_mem_nil _)]
  | _ + 1, 0, s, _, h2 => by
      have hs : s = [] := List.eq_nil_of_length_eq_zero (Nat.le_zero.mp h2)
      subst hs
      simp only [replaceVarF, varPat_cons, splitFirst_none_head [] (List.not_mem_nil _)]
  | f1 + 1, f2 + 1, s, h1, h2 => by
      cases hsp : splitFirst (varPat key) s with
      | none => simp only [replaceVarF, hsp]
      | some pr =>
          obtain ⟨pre, rest⟩ := pr
          have l1 : rest.length < s.length := by
            rw [varPat_cons] at hsp
            exact splitFirst_some_lt hsp
          have hrec := replaceVarF_fuel key value f1 f2 rest (by omega) (by omega)
          simp only [replaceVarF, hsp, hrec]

theorem replaceVar_eq (key value s : Str) :
    replaceVar key value s =
      match splitFirst (varPat key) s with
      | none => s
      | some (pre, rest) => pre ++ value ++ replaceVar key value rest := by
  cases hsp : splitFirst (varPat key) s with
  | none =>
      show replaceVarF key value s.length s = _
      cases hL : s.length with
      | zero => simp only [replaceVarF, hsp]
      | succ k => simp only [replaceVarF, hsp]
  | some pr =>
      obtain ⟨pre, rest⟩ := pr
      have l1 : rest.length < s.length := by
        rw [varPat_cons] at hsp
        exact splitFirst_some_lt hsp
      show replaceVarF key value s.length s = _
      cases hL : s.length with
      | zero => omega
      | succ k =>
          have hrec : replaceVarF key value k rest = replaceVar key value rest := by
            show _ = replaceVarF key value rest.length rest
            exact replaceVarF_fuel key value k rest.length rest (by omega) (by omega)
          simp only [replaceVarF, hsp, hrec]

theorem tryCondAt_some_lt {ap s r after : Str} (h : tryCondAt ap s = some (r, after)) :
    after.length < s.length := by
  unfold tryCondAt at h
  split at h
  · have hdrop : (s.drop condClassPre.length).length ≤ s.length := by
      rw [List.length_drop]; omega
    split at h
    · cases h
    next u s2 hu =>
      have l2 : s2.length < (s.drop condClassPre.length).length := splitFirst_some_lt hu
      split at h
      · split at h
        · cases h
        next t s3 ht =>
          have l3 : s3.length < s2.length := splitFirst_some_lt ht
          split at h
          · split at h
            · cases h
            next g3 s5 hg =>
              have l5 : s5.length < (s3.drop condAfterTarget.length).length :=
                splitFirst_some_lt hg
              have l4 : (s3.drop condAfterTarget.length).length ≤ s3.length := by
                rw [List.length_drop]; omega
              cases h
              omega
          · cases h
      · cases h
  · cases h

theorem condClassSubF_fuel (ap : Str) : (f1 f2 : Nat) → (s : Str) →
    s.length ≤ f1 → s.length ≤ f2 → condClassSubF ap f1 s = condClassSubF ap f2 s
  | 0, 0, _, _, _ => rfl
  | 0, _ + 1, s, h1, _ => by
      have hs : s = [] := List.eq_nil_of_length_eq_zero (Nat.le_zero.mp h1)
      subst hs
      rfl
  | _ + 1, 0, s, _, h2 => by
      have hs : s = [] := List.eq_nil_of_length_eq_zero (Nat.le_zero.mp h2)
      subst hs
      rfl
  | _ + 1, _ + 1, [], _, _ => rfl
  | f1 + 1, f2 + 1, c :: rest, h1, h2 => by
      simp only [List.length_cons] at h1 h2
      cases htc : tryCondAt ap (c :: rest) with
      | none =>
          have hrec := condClassSubF_fuel ap f1 f2 rest (by omega) (by omega)
          simp only [condClassSubF, htc, hrec]
      | some pr =>
          obtain ⟨repl, after⟩ := pr
          have l1 : after.length < (c :: rest).length := tryCondAt_some_lt htc
          simp only [List.length_cons] at l1
          have hrec := condClassSubF_fuel ap f1 f2 after (by omega) (by omega)
          simp only [condClassSubF, htc, hrec]

theorem condClassSub_nil (ap : Str) : condClassSub ap [] = [] := rfl

theorem condClassSub_cons (ap : Str) (c : Char) (rest : Str) :
    condClassSub ap (c :: rest) =
      match tryCondAt ap (c :: rest) with
      | some (repl, after) => repl ++ condClassSub ap after
      | none => c :: condClassSub ap rest := by
  cases htc : tryCondAt ap (c :: rest) with
  | none =>
      show condClassSubF ap (c :: rest).length (c :: rest) = _
      rw [List.length_cons]
      simp only [condClassSubF, htc]
      rfl
  | some pr =>
      obtain ⟨repl, after⟩ := pr
      have l1 : after.length < (c :: rest).length := tryCondAt_some_lt htc
      simp only [List.length_cons] at l1
      have hrec : condClassSubF ap rest.length after = condClassSub ap after := by
        show _ = condClassSubF ap after.length after
        exact condClassSubF_fuel ap rest.length after.length after (by omega) (by omega)
      show condClassSubF ap (c :: rest).length (c :: rest) = _
      rw [List.length_cons]
      simp only [condClassSubF, htc, hrec]

theorem condClassSub_some {ap s r after : Str} (h : tryCondAt ap s = some (r, after)) :
    condClassSub ap s = r ++ condClassSub ap after := by
  cases s with
  | nil => rw [show tryCondAt ap [] = none from rfl] at h; cases h
  | cons c rest => rw [condClassSub_cons, h]

/- ------------------------------------------------------------------ -/
/- Identity, pass-through and single-match lemmas. -/

theorem subBlock_id {name repl : Str} {s : Str} (h : '\x7b' ∉ s) :
    subBlock name repl s = s := by
  rw [subBlock_eq, blockOpen_cons, splitFirst_none_head s h]

theorem subBlock_step {name repl : Str} (x inner rest : Str)
    (hx : '\x7b' ∉ x) (hi : '\x7b' ∉ inner) :
    subBlock name repl (x ++ (blockOpen name ++ (inner ++ (endblock ++ rest)))) =
      x ++ (repl ++ subBlock name repl rest) := by
  have h1 : splitFirst (blockOpen name) (x ++ blockOpen name ++ (inner ++ endblock ++ rest)) =
      some (x, inner ++ endblock ++ rest) := by
    rw [blockOpen_cons]
    exact splitFirst_append_head x (inner ++ endblock ++ rest) hx
  have h2 : splitFirst endblock (inner ++ endblock ++ rest) = some (inner, rest) := by
    rw [endblock_cons]
    exact splitFirst_append_head inner rest hi
  rw [subBlock_eq]
  simp only [List.append_assoc] at h1 h2 ⊢
  simp only [h1, h2]

theorem replaceVar_id {key value : Str} {s : Str} (h : '\x7b' ∉ s) :
    replaceVar key value s = s := by
  rw [replaceVar_eq, varPat_cons, splitFirst_none_head s h]

theorem replaceVar_varPat_step (key value b : Str) :
    replaceVar key value (varPat key ++ b) = value ++ replaceVar key value b := by
  have h1 : splitFirst (varPat key) ([] ++ varPat key ++ b) = some ([], b) := by
    rw [varPat_cons]
    exact splitFirst_append_head [] b (List.not_mem_nil _)
  rw [List.nil_append] at h1
  rw [replaceVar_eq]
  simp only [h1, List.nil_append]

theorem substVars_id : (ctx : List (Str × Str)) → {s : Str} → '\x7b' ∉ s →
    substVars ctx s = s
  | [], _, _ => rfl
  | (k, v) :: rest, s, h => by
      rw [substVars, replaceVar_id h, substVars_id rest h]

theorem condClassSub_pass {ap : Str} : (x rest : Str) → 'c' ∉ x →
    condClassSub ap (x ++ rest) = x ++ condClassSub ap rest
  | [], rest, _ => by rw [List.nil_append, List.nil_append]
  | d :: x', rest, hx => by
      have hd : 'c' ≠ d := fun e => hx (e ▸ List.mem_cons_self d x')
      have hx' : 'c' ∉ x' := fun e => hx (List.mem_cons_of_mem d e)
      have htc : tryCondAt ap (d :: (x' ++ rest)) = none := by
        unfold tryCondAt
        rw [if_neg (by
          rw [condClassPre_cons]
          simp only [List.isPrefixOf, Bool.and_eq_true, beq_iff_eq]
          exact fun hcontra => hd hcontra.1)]
      show condClassSub ap (d :: (x' ++ rest)) = _
      rw [condClassSub_cons, htc, condClassSub_pass x' rest hx']
      rfl

theorem tryCondAt_none_noquote {ap s : Str} (h : quoteChar ∉ s) : tryCondAt ap s = none := by
  unfold tryCondAt
  rw [if_neg]
  intro hpre
  exact h (mem_of_isPrefixOf hpre (by decide))

theorem condClassSub_id {ap : Str} : {s : Str} → quoteChar ∉ s → condClassSub ap s = s
  | [], _ => rfl
  | c :: rest, h => by
      have hr : quoteChar ∉ rest := fun e => h (List.mem_cons_of_mem c e)
      rw [condClassSub_cons, tryCondAt_none_noquote h, condClassSub_id hr]

theorem tryCondAt_frag {ap a t b rest : Str} (ha : quoteChar ∉ a) (ht : quoteChar ∉ t)
    (htne : t ≠ []) (hb : quoteChar ∉ b) :
    tryCondAt ap (condFrag a t b ++ rest) = some (condOut ap a t b, rest) := by
  have hcipq : quoteChar ∉ condIfPreNoQuote := by decide
  have hu0 : quoteChar ∉ a ++ condIfPreNoQuote := by
    intro hm
    rcases List.mem_append.mp hm with hm | hm
    · exact ha hm
    · exact hcipq hm
  have hshape : condFrag a t b ++ rest =
      condClassPre ++ ((a ++ condIfPreNoQuote) ++ [quoteChar] ++
        (t ++ [quoteChar] ++ (condAfterTarget ++ (b ++ [quoteChar] ++ rest)))) := by
    simp only [condFrag, List.append_assoc]
  have hpre : condClassPre.isPrefixOf (condFrag a t b ++ rest) = true := by
    rw [hshape]; exact isPrefixOf_append_self _ _
  have hdrop : (condFrag a t b ++ rest).drop condClassPre.length =
      (a ++ condIfPreNoQuote) ++ [quoteChar] ++
        (t ++ [quoteChar] ++ (condAfterTarget ++ (b ++ [quoteChar] ++ rest))) := by
    rw [hshape]; exact List.drop_left _ _
  have hsp1 : splitFirst [quoteChar] ((a ++ condIfPreNoQuote) ++ [quoteChar] ++
      (t ++ [quoteChar] ++ (condAfterTarget ++ (b ++ [quoteChar] ++ rest)))) =
      some (a ++ condIfPreNoQuote,
        t ++ [quoteChar] ++ (condAfterTarget ++ (b ++ [quoteChar] ++ rest))) :=
    splitFirst_append_head _ _ hu0
  have hsuf : condIfPreNoQuote.isSuffixOf (a ++ condIfPreNoQuote) = true := by
    show (condIfPreNoQuote.reverse.isPrefixOf (a ++ condIfPreNoQuote).reverse) = true
    rw [List.reverse_append]
    exact isPrefixOf_append_self _ _
  have htake : (a ++ condIfPreNoQuote).take
      ((a ++ condIfPreNoQuote).length - condIfPreNoQuote.length) = a := by
    rw [show (a ++ condIfPreNoQuote).length - condIfPreNoQuote.length = a.length by
      rw [List.length_append]; omega]
    exact List.take_left _ _
  have hsp2 : splitFirst [quoteChar]
      (t ++ [quoteChar] ++ (condAfterTarget ++ (b ++ [quoteChar] ++ rest))) =
      some (t, condAfterTarget ++ (b ++ [quoteChar] ++ rest)) :=
    splitFirst_append_head _ _ ht
  have hif2 : condAfterTarget.isPrefixOf (condAfterTarget ++ (b ++ [quoteChar] ++ rest)) = true :=
    isPrefixOf_append_self _ _
  have hdrop2 : (condAfterTarget ++ (b ++ [quoteChar] ++ rest)).drop condAfterTarget.length =
      b ++ [quoteChar] ++ rest := List.drop_left _ _
  have hsp3 : splitFirst [quoteChar] (b ++ [quoteChar] ++ rest) = some (b, rest) :=
    splitFirst_append_head _ _ hb
  simp only [List.append_assoc] at hsp1 hsp2 hif2 hdrop2 hsp3
  unfold tryCondAt
  rw [if_pos hpre, hdrop]
  simp only [List.append_assoc, hsp1, hsuf, if_true, hsp2, htne, hif2, hdrop2, hsp3,
    htake, ne_eq, not_false_iff, true_and, and_self, if_pos, condOut]

theorem condClassSub_frag {ap a t b rest : Str} (ha : quoteChar ∉ a) (ht : quoteChar ∉ t)
    (htne : t ≠ []) (hb : quoteChar ∉ b) :
    condClassSub ap (condFrag a t b ++ rest) =
      condOut ap a t b ++ condClassSub ap rest :=
  condClassSub_some (tryCondAt_frag ha ht htne hb)

/- ------------------------------------------------------------------ -/
/- Claim theorems. -/

/-- C1 (counterexample): with the base document absent, rendering an
Inheriting-state document does not fail with an error: it returns an ordinary
document, namely the child text itself, which still contains the raw extends
directive, i.e. a partial, uncomposed document rather than a distinguished
failure. -/
theorem c1_missing_base_counterexample :
    render_template none extendsMarker [] = extendsMarker ∧
    containsSub extendsMarker (render_template none extendsMarker []) = true := by
  decide

/-- C1 (amended): for every Inheriting-state document whose base document
cannot be loaded, render_template does not fail and does not compose: it falls
back to the child text itself and applies variable substitution and the
conditional-class rewrite to it. -/
theorem c1_missing_base_fallback (doc : Str) (ctx : List (Str × Str))
    (h : containsSub extendsMarker doc = true) :
    render_template none doc ctx =
      condClassSub (ctxGet ctx (strOf "active_page") []) (substVars ctx doc) := by
  simp [render_template, h]

theorem c1_missing_base_fallback_witness :
    render_template none extendsMarker [(strOf "k", strOf "v")] =
      condClassSub (ctxGet [(strOf "k", strOf "v")] (strOf "active_page") [])
        (substVars [(strOf "k", strOf "v")] extendsMarker) :=
  c1_missing_base_fallback extendsMarker [(strOf "k", strOf "v")] (by decide)

/-- C2 (counterexample): composing the claim's base document with a child that
declares no content block does not yield the base's content block text with
the delimiters removed: the render returns the base text itself unchanged,
which is not "<body>DEFAULT</body>". -/
theorem c2_fallback_counterexample :
    render_template
        (some (strOf "<body>\x7b%block content%\x7dDEFAULT\x7b%endblock%\x7d</body>"))
        extendsMarker [] =
      strOf "<body>\x7b%block content%\x7dDEFAULT\x7b%endblock%\x7d</body>" ∧
    strOf "<body>\x7b%block content%\x7dDEFAULT\x7b%endblock%\x7d</body>" ≠
      strOf "<body>DEFAULT</body>" := by
  decide

/-- C2 (amended): when an Inheriting-state child declares no content block the
base document is used as-is: the base's own content block text is kept in
place, but the block delimiters are not removed; the spaced-marker analogue of
the claim's example renders to the base text itself, markers included. -/
theorem c2_fallback_markers_retained :
    render_template
        (some (strOf "<body>\x7b% block content %\x7dDEFAULT\x7b% endblock %\x7d</body>"))
        extendsMarker [] =
      strOf "<body>\x7b% block content %\x7dDEFAULT\x7b% endblock %\x7d</body>" ∧
    containsSub (blockOpen (strOf "content"))
      (render_template
        (some (strOf "<body>\x7b% block content %\x7dDEFAULT\x7b% endblock %\x7d</body>"))
        extendsMarker []) = true := by
  decide

/-- C3 (counterexample): a child document with an open content marker and no
matching close marker does not abort the render with an error: the malformed
block is silently ignored (extraction finds no block) and the base document,
default content included, is returned as a normal result. -/
theorem c3_malformed_counterexample :
    render_template
        (some (strOf "<body>\x7b% block content %\x7dDEF\x7b% endblock %\x7d</body>"))
        (strOf "\x7b% extends \"base.html\" %\x7d\x7b% block content %\x7dORPHAN") [] =
      strOf "<body>\x7b% block content %\x7dDEF\x7b% endblock %\x7d</body>" ∧
    extractBlock (strOf "content")
      (strOf "\x7b% extends \"base.html\" %\x7d\x7b% block content %\x7dORPHAN") = none := by
  decide

/-- C3 (amended): an open block marker with no matching close marker anywhere
in the child is not a rendering error: block extraction returns none, the
malformed blocks are silently ignored, and the render proceeds exactly as for
a child that declares no blocks at all. -/
theorem c3_malformed_silently_ignored (base child : Str) (ctx : List (Str × Str))
    (hext : containsSub extendsMarker child = true)
    (hnoclose : containsSub endblock child = false) :
    render_template (some base) child ctx =
      condClassSub (ctxGet ctx (strOf "active_page") [])
        (substVars ctx
          (subBlock (strOf "title") (ctxGet ctx (strOf "title") (strOf "WasmWiz")) base)) := by
  have h1 : extractBlock (strOf "content") child = none :=
    extractBlock_none_of_no_close hnoclose
  have h2 : extractBlock (strOf "title") child = none :=
    extractBlock_none_of_no_close hnoclose
  simp [render_template, composeInherit, hext, h1, h2]

theorem c3_malformed_silently_ignored_witness :
    render_template (some (strOf "BASE DOC"))
        (strOf "\x7b% extends \"base.html\" %\x7d\x7b% block content %\x7dORPHAN") [] =
      condClassSub (ctxGet [] (strOf "active_page") [])
        (substVars []
          (subBlock (strOf "title") (ctxGet [] (strOf "title") (strOf "WasmWiz"))
            (strOf "BASE DOC"))) :=
  c3_malformed_silently_ignored (strOf "BASE DOC") _ [] (by decide) (by decide)

/-- C4 (counterexample): the splice is not first-occurrence-only on the base: a
base with two content blocks has both replaced by the extracted child block,
instead of only the first as the claim states. -/
theorem c4_splice_counterexample :
    render_template
        (some (strOf "A\x7b% block content %\x7dX\x7b% endblock %\x7dB\x7b% block content %\x7dY\x7b% endblock %\x7dC"))
        (strOf "\x7b% extends \"base.html\" %\x7d\x7b% block content %\x7dCHILD\x7b% endblock %\x7d")
        [] =
      strOf "ACHILDBCHILDC" ∧
    strOf "ACHILDBCHILDC" ≠
      strOf "ACHILDB\x7b% block content %\x7dY\x7b% endblock %\x7dC" := by
  decide

/-- C4 (amended): extraction is first-occurrence-only on the child (a child
with two content blocks contributes only the first, CHILD1), but the splice is
not first-occurrence-only on the base: every content-block occurrence of the
base is replaced with the one extracted child block. -/
theorem c4_first_extract_all_splice (p x m y s : Str)
    (hp : '\x7b' ∉ p) (hx : '\x7b' ∉ x) (hm : '\x7b' ∉ m) (hy : '\x7b' ∉ y)
    (hs : '\x7b' ∉ s) (hpq : quoteChar ∉ p) (hmq : quoteChar ∉ m) (hsq : quoteChar ∉ s) :
    render_template
        (some (p ++ blockOpen (strOf "content") ++ x ++ endblock ++
               m ++ blockOpen (strOf "content") ++ y ++ endblock ++ s))
        (strOf "\x7b% extends \"base.html\" %\x7d\x7b% block content %\x7dCHILD1\x7b% endblock %\x7d\x7b% block content %\x7dCHILD2\x7b% endblock %\x7d")
        [] =
      p ++ strOf "CHILD1" ++ m ++ strOf "CHILD1" ++ s := by
  have hext : containsSub extendsMarker
      (strOf "\x7b% extends \"base.html\" %\x7d\x7b% block content %\x7dCHILD1\x7b% endblock %\x7d\x7b% block content %\x7dCHILD2\x7b% endblock %\x7d") = true := by
    decide
  have hextract : extractBlock (strOf "content")
      (strOf "\x7b% extends \"base.html\" %\x7d\x7b% block content %\x7dCHILD1\x7b% endblock %\x7d\x7b% block content %\x7dCHILD2\x7b% endblock %\x7d") =
      some (strOf "CHILD1") := by
    decide
  have htitle : extractBlock (strOf "title")
      (strOf "\x7b% extends \"base.html\" %\x7d\x7b% block content %\x7dCHILD1\x7b% endblock %\x7d\x7b% block content %\x7dCHILD2\x7b% endblock %\x7d") =
      none := by
    decide
  have hchild1b : '\x7b' ∉ strOf "CHILD1" := by decide
  have hchild1q : quoteChar ∉ strOf "CHILD1" := by decide
  have hstrip : pyStrip (strOf "CHILD1") = strOf "CHILD1" := by decide
  have hr1 : subBlock (strOf "content") (strOf "CHILD1")
      (p ++ (blockOpen (strOf "content") ++ (x ++ (endblock ++
        (m ++ (blockOpen (strOf "content") ++ (y ++ (endblock ++ s)))))))) =
      p ++ (strOf "CHILD1" ++ (m ++ (strOf "CHILD1" ++ s))) := by
    rw [subBlock_step p x _ hp hx, subBlock_step m y s hm hy, subBlock_id hs]
  have hres : '\x7b' ∉ p ++ (strOf "CHILD1" ++ (m ++ (strOf "CHILD1" ++ s))) := by
    simp only [List.mem_append, not_or]
    exact ⟨hp, hchild1b, hm, hchild1b, hs⟩
  have hresq : quoteChar ∉ p ++ (strOf "CHILD1" ++ (m ++ (strOf "CHILD1" ++ s))) := by
    simp only [List.mem_append, not_or]
    exact ⟨hpq, hchild1q, hmq, hchild1q, hsq⟩
  simp only [render_template, composeInherit, hext, if_true, hextract, htitle, hstrip,
    List.append_assoc, hr1]
  rw [subBlock_id hres]
  rw [show substVars [] (p ++ (strOf "CHILD1" ++ (m ++ (strOf "CHILD1" ++ s)))) =
    p ++ (strOf "CHILD1" ++ (m ++ (strOf "CHILD1" ++ s))) from rfl]
  exact condClassSub_id hresq

theorem c4_first_extract_all_splice_witness :
    render_template
        (some (strOf "A" ++ blockOpen (strOf "content") ++ strOf "X" ++ endblock ++
               strOf "B" ++ blockOpen (strOf "content") ++ strOf "Y" ++ endblock ++ strOf "C"))
        (strOf "\x7b% extends \"base.html\" %\x7d\x7b% block content %\x7dCHILD1\x7b% endblock %\x7d\x7b% block content %\x7dCHILD2\x7b% endblock %\x7d")
        [] =
      strOf "A" ++ strOf "CHILD1" ++ strOf "B" ++ strOf "CHILD1" ++ strOf "C" :=
  c4_first_extract_all_splice (strOf "A") (strOf "X") (strOf "B") (strOf "Y") (strOf "C")
    (by decide) (by decide) (by decide) (by decide) (by decide)
    (by decide) (by decide) (by decide)

/-- C5 (counterexample): substitution is not order-independent and does not
equal a simultaneous substitution: with distinct keys a and b, where the value
of a contains b's placeholder, processing a before b yields X (the inserted
value was re-scanned for b), while processing b before a leaves b's
placeholder. -/
theorem c5_order_counterexample :
    substVars [(strOf "a", strOf "\x7b\x7b b \x7d\x7d"), (strOf "b", strOf "X")]
        (strOf "\x7b\x7b a \x7d\x7d") = strOf "X" ∧
    substVars [(strOf "b", strOf "X"), (strOf "a", strOf "\x7b\x7b b \x7d\x7d")]
        (strOf "\x7b\x7b a \x7d\x7d") = strOf "\x7b\x7b b \x7d\x7d" ∧
    substVars [(strOf "a", strOf "\x7b\x7b b \x7d\x7d"), (strOf "b", strOf "X")]
        (strOf "\x7b\x7b a \x7d\x7d") ≠
      substVars [(strOf "b", strOf "X"), (strOf "a", strOf "\x7b\x7b b \x7d\x7d")]
        (strOf "\x7b\x7b a \x7d\x7d") := by
  decide

/-- C5 (amended): substitution is sequential per key in mapping order: within
one key's pass, the value inserted for a placeholder is spliced in and the
scan resumes strictly after it, so it is never re-scanned for that same key
(even when the value contains that key's own placeholder); but each later
key's pass runs over the whole intermediate document, re-scanning
earlier-inserted values, so the output can depend on key order. -/
theorem c5_sequential_substitution (k v b : Str) (ctx : List (Str × Str)) (s : Str) :
    replaceVar k v (varPat k ++ b) = v ++ replaceVar k v b ∧
    substVars ((k, v) :: ctx) s = substVars ctx (replaceVar k v s) :=
  ⟨replaceVar_varPat_step k v b, rfl⟩

/-- C6 (counterexample): a Standalone document containing a conditional-class
fragment is not returned unchanged by a render with the empty context: the
conditional-class rewrite still runs (with the empty active_page), removes the
directive text and emits nothing. -/
theorem c6_idempotence_counterexample :
    containsSub extendsMarker
        (strOf "<a class=\"x\x7b% if active_page == \"docs\" %\x7dactive\x7b% endif %\x7dy\">") =
      false ∧
    render_template none
        (strOf "<a class=\"x\x7b% if active_page == \"docs\" %\x7dactive\x7b% endif %\x7dy\">")
        [] =
      strOf "<a class=\"xy\">" ∧
    strOf "<a class=\"xy\">" ≠
      strOf "<a class=\"x\x7b% if active_page == \"docs\" %\x7dactive\x7b% endif %\x7dy\">" := by
  decide

/-- C6 (amended): rendering a Standalone document with an empty context
returns it unchanged provided the document contains no double-quote character
(and hence no conditional-class fragment for the always-running
conditional-class rewrite to match). -/
theorem c6_standalone_identity (bh : Option Str) (doc : Str)
    (h1 : containsSub extendsMarker doc = false) (h2 : quoteChar ∉ doc) :
    render_template bh doc [] = doc := by
  simp only [render_template, h1, Bool.false_eq_true, if_false, substVars,
    ctxGet, ctxFind, Option.getD]
  exact condClassSub_id h2

theorem c6_standalone_identity_witness :
    render_template none (strOf "<p>hello</p>") [] = strOf "<p>hello</p>" :=
  c6_standalone_identity none (strOf "<p>hello</p>") (by decide) (by decide)

/-- C7: the conditional-class resolver, run with the active_page value ap
taken from the context, rewrites every well-formed conditional-class fragment
in the document independently: it emits the literal token active exactly when
ap equals the fragment's captured target, emits nothing otherwise, removes the
directive text in both cases, keeps the surrounding literal class text a and b
adjacent to the emitted token, and leaves the text between fragments
untouched. -/
theorem c7_conditional_class_resolver (ap s0 s1 s2 a1 t1 b1 a2 t2 b2 : Str)
    (h0 : 'c' ∉ s0) (h1 : 'c' ∉ s1) (h2 : quoteChar ∉ s2)
    (ha1 : quoteChar ∉ a1) (ht1 : quoteChar ∉ t1) (ht1ne : t1 ≠ []) (hb1 : quoteChar ∉ b1)
    (ha2 : quoteChar ∉ a2) (ht2 : quoteChar ∉ t2) (ht2ne : t2 ≠ []) (hb2 : quoteChar ∉ b2) :
    condClassSub ap (s0 ++ condFrag a1 t1 b1 ++ (s1 ++ condFrag a2 t2 b2 ++ s2)) =
      s0 ++ condOut ap a1 t1 b1 ++ (s1 ++ condOut ap a2 t2 b2 ++ s2) ∧
    condOut ap a1 t1 b1 =
      condClassPre ++ a1 ++ (if ap = t1 then strOf "active" else []) ++ b1 ++ [quoteChar] := by
  constructor
  · simp only [List.append_assoc]
    rw [condClassSub_pass s0 _ h0]
    rw [condClassSub_frag ha1 ht1 ht1ne hb1]
    rw [condClassSub_pass s1 _ h1]
    rw [condClassSub_frag ha2 ht2 ht2ne hb2]
    rw [condClassSub_id h2]
  · rfl

theorem c7_conditional_class_resolver_witness :
    condClassSub (strOf "docs")
        (strOf "<nav>" ++ condFrag (strOf "nav ") (strOf "docs") [] ++
          (strOf " mid " ++ condFrag (strOf "m ") (strOf "examples") (strOf " end") ++
            strOf "</nav>")) =
      strOf "<nav>" ++ condOut (strOf "docs") (strOf "nav ") (strOf "docs") [] ++
        (strOf " mid " ++
          condOut (strOf "docs") (strOf "m ") (strOf "examples") (strOf " end") ++
          strOf "</nav>") ∧
    condOut (strOf "docs") (strOf "nav ") (strOf "docs") [] =
      condClassPre ++ strOf "nav " ++
        (if strOf "docs" = strOf "docs" then strOf "active" else []) ++ [] ++ [quoteChar] :=
  c7_conditional_class_resolver (strOf "docs") (strOf "<nav>") (strOf " mid ")
    (strOf "</nav>") (strOf "nav ") (strOf "docs") [] (strOf "m ") (strOf "examples")
    (strOf " end") (by decide) (by decide) (by decide) (by decide) (by decide)
    (by decide) (by decide) (by decide) (by decide) (by decide) (by decide)

/-- C8 (counterexample): a placeholder whose key (foo) is absent from the
context is removed from the output when it lies inside a conditional-class
directive: the directive, placeholder text included, is deleted by the
conditional-class rewrite, so the literal placeholder does not remain
verbatim. -/
theorem c8_placeholder_counterexample :
    render_template none
        (strOf "class=\"x\x7b% if active_page == \"\x7b\x7b foo \x7d\x7d\" %\x7dactive\x7b% endif %\x7dy\"")
        [(strOf "active_page", strOf "docs")] =
      strOf "class=\"xy\"" ∧
    containsSub (varPat (strOf "foo"))
      (render_template none
        (strOf "class=\"x\x7b% if active_page == \"\x7b\x7b foo \x7d\x7d\" %\x7dactive\x7b% endif %\x7dy\"")
        [(strOf "active_page", strOf "docs")]) = false ∧
    containsSub (varPat (strOf "foo"))
      (strOf "class=\"x\x7b% if active_page == \"\x7b\x7b foo \x7d\x7d\" %\x7dactive\x7b% endif %\x7dy\"") =
      true := by
  decide

/-- C8 (amended): the variable-substitution pass itself leaves a placeholder
whose key is absent from the context verbatim in the output, as here for foo
under the server's three context keys; only the later conditional-class
rewrite can delete placeholder text, namely when it lies inside a conditional
directive. -/
theorem c8_substitution_preserves_absent_key :
    render_template none
        (strOf "<h1>\x7b\x7b title \x7d\x7d</h1><p>\x7b\x7b foo \x7d\x7d</p>")
        [(strOf "title", strOf "T"), (strOf "csrf_token", strOf "C"),
         (strOf "active_page", strOf "docs")] =
      strOf "<h1>T</h1><p>\x7b\x7b foo \x7d\x7d</p>" ∧
    containsSub (varPat (strOf "foo"))
      (render_template none
        (strOf "<h1>\x7b\x7b title \x7d\x7d</h1><p>\x7b\x7b foo \x7d\x7d</p>")
        [(strOf "title", strOf "T"), (strOf "csrf_token", strOf "C"),
         (strOf "active_page", strOf "docs")]) = true := by
  decide

/-- C9: inheritance is triggered exactly by substring containment of the one
fixed literal extends directive: when the marker occurs anywhere in the
document (even mid-line) the render composes against the base document before
substitution, and when it does not occur the document passes through to
substitution unchanged; a directive naming any other base document is not
recognized. -/
theorem c9_extends_trigger (doc base : Str) (ctx : List (Str × Str)) :
    ((containsSub extendsMarker doc = true →
        render_template (some base) doc ctx =
          condClassSub (ctxGet ctx (strOf "active_page") [])
            (substVars ctx (composeInherit base doc ctx))) ∧
     (containsSub extendsMarker doc = false →
        render_template (some base) doc ctx =
          condClassSub (ctxGet ctx (strOf "active_page") []) (substVars ctx doc))) ∧
    (containsSub extendsMarker
        (strOf "text \x7b% extends \"base.html\" %\x7d text") = true ∧
     containsSub extendsMarker (strOf "\x7b% extends \"other.html\" %\x7d") = false) := by
  refine ⟨⟨fun h => ?_, fun h => ?_⟩, by decide, by decide⟩
  · simp [render_template, h]
  · simp [render_template, h]

theorem c9_extends_trigger_witness :
    render_template (some (strOf "BASE")) (strOf "plain document") [] =
      condClassSub (ctxGet [] (strOf "active_page") [])
        (substVars [] (strOf "plain document")) :=
  (c9_extends_trigger (strOf "plain document") (strOf "BASE") []).1.2 (by decide)

/-- C10: in the Inheriting state, when the child declares no title block and
the context mapping has no title key, the base document's title block is
replaced by the hard-coded literal WasmWiz, a fallback distinct from the
Context Builder's unknown-route fallback title. -/
theorem c10_title_fallback (p x s : Str) (ctx : List (Str × Str))
    (hp : '\x7b' ∉ p) (hx : '\x7b' ∉ x) (hs : '\x7b' ∉ s)
    (hpq : quoteChar ∉ p) (hsq : quoteChar ∉ s)
    (htitle : ctxFind ctx (strOf "title") = none) :
    render_template (some (p ++ blockOpen (strOf "title") ++ x ++ endblock ++ s))
        extendsMarker ctx =
      p ++ strOf "WasmWiz" ++ s ∧
    get_page_title (strOf "/unknown") = strOf "WasmWiz - WebAssembly Execution API" ∧
    strOf "WasmWiz" ≠ strOf "WasmWiz - WebAssembly Execution API" := by
  refine ⟨?_, by decide, by decide⟩
  have hext : containsSub extendsMarker extendsMarker = true := by decide
  have hc : extractBlock (strOf "content") extendsMarker = none := by decide
  have ht : extractBlock (strOf "title") extendsMarker = none := by decide
  have hW : ctxGet ctx (strOf "title") (strOf "WasmWiz") = strOf "WasmWiz" := by
    rw [ctxGet, htitle]; rfl
  have hWb : '\x7b' ∉ strOf "WasmWiz" := by decide
  have hWq : quoteChar ∉ strOf "WasmWiz" := by decide
  have hsub : subBlock (strOf "title") (strOf "WasmWiz")
      (p ++ (blockOpen (strOf "title") ++ (x ++ (endblock ++ s)))) =
      p ++ (strOf "WasmWiz" ++ s) := by
    rw [subBlock_step p x s hp hx, subBlock_id hs]
  have hres : '\x7b' ∉ p ++ (strOf "WasmWiz" ++ s) := by
    simp only [List.mem_append, not_or]
    exact ⟨hp, hWb, hs⟩
  have hresq : quoteChar ∉ p ++ (strOf "WasmWiz" ++ s) := by
    simp only [List.mem_append, not_or]
    exact ⟨hpq, hWq, hsq⟩
  simp only [render_template, composeInherit, hext, if_true, hc, ht, hW,
    List.append_assoc, hsub]
  rw [substVars_id ctx hres]
  exact condClassSub_id hresq

theorem c10_title_fallback_witness :
    render_template
        (some (strOf "<title>" ++ blockOpen (strOf "title") ++ strOf "X" ++ endblock ++
          strOf "</title>"))
        extendsMarker [] =
      strOf "<title>" ++ strOf "WasmWiz" ++ strOf "</title>" ∧
    get_page_title (strOf "/unknown") = strOf "WasmWiz - WebAssembly Execution API" ∧
    strOf "WasmWiz" ≠ strOf "WasmWiz - WebAssembly Execution API" :=
  c10_title_fallback (strOf "<title>") (strOf "X") (strOf "</title>") []
    (by decide) (by decide) (by decide) (by decide) (by decide) (by decide)
